import Mathlib

/-!
Shallow embedding of the prompt-input token model and its operations,
translated from the TypeScript source of the `prompt-input` component
(`src/prompt-input/internal.tsx`, `src/prompt-input/tokens/token-utils.tsx`,
`src/prompt-input/utils/cursor-utils.ts`, `src/prompt-input/selection-utils.ts`),
together with theorems settling the specification claims about it.
-/

set_option maxHeartbeats 1000000

namespace PromptInput

/-- Tag of a virtual token: `'mode' | 'text' | 'reference'` in
`internal.tsx` (interface `VirtualToken`). -/
inductive TokenType where
  | mode
  | text
  | reference
deriving DecidableEq, Repr

/-- `VirtualToken` from `internal.tsx`:
`{ type: 'mode' | 'text' | 'reference'; value: string; label?: string; id?: string }`.
The optional fields are modelled as `Option String`. -/
structure VirtualToken where
  type : TokenType
  value : String
  label : Option String := none
  id : Option String := none
deriving DecidableEq, Repr

/-- Shorthand for a plain text virtual token (`{ type: 'text', value: v }`). -/
def mkText (v : String) : VirtualToken := ⟨.text, v, none, none⟩

/-- Cursor-space length of a virtual token: Text counts per character,
Reference/Mode count as 1 (`token.type === 'text' ? token.value.length : 1`). -/
def virtualTokenCursorLength (t : VirtualToken) : Nat :=
  match t.type with
  | .text => t.value.length
  | _ => 1

/-- Total cursor-space length of a virtual token array. -/
def totalCursorLength (tokens : List VirtualToken) : Nat :=
  (tokens.map virtualTokenCursorLength).sum

/-- Loop body of `cursorSpaceToDomSpace` (`internal.tsx` lines 359-388):
walks the virtual tokens with running `domPos` and `cursorPos`; breaks as soon
as `cursorPos >= cursorSpacePos`; a text token either contains the position
(`remaining <= tokenLength`, returning `domPos + remaining`) or advances both
counters by its length; a mode/reference token advances only `cursorPos` by 1
(such tokens are contentEditable=false, invisible to DOM text offsets). -/
def cursorSpaceToDomSpaceAux : List VirtualToken → Nat → Nat → Nat → Nat
  | [], _, domPos, _ => domPos
  | token :: rest, cursorSpacePos, domPos, cursorPos =>
    if cursorSpacePos ≤ cursorPos then domPos
    else
      match token.type with
      | .text =>
        let remaining := cursorSpacePos - cursorPos
        let tokenLength := token.value.length
        if remaining ≤ tokenLength then domPos + remaining
        else cursorSpaceToDomSpaceAux rest cursorSpacePos (domPos + tokenLength) (cursorPos + tokenLength)
      | _ => cursorSpaceToDomSpaceAux rest cursorSpacePos domPos (cursorPos + 1)

/-- `cursorSpaceToDomSpace` from `internal.tsx` lines 359-388. -/
def cursorSpaceToDomSpace (tokens : List VirtualToken) (cursorSpacePos : Nat) : Nat :=
  cursorSpaceToDomSpaceAux tokens cursorSpacePos 0 0

/-- `token.label?.length || token.value.length`: the DOM length a non-text
token is given by the surface-to-cursor walk in `handleEditableElementKeyDown`
(a missing or empty label falls back to the value's length). -/
def jsLabelLengthOrValue (t : VirtualToken) : Nat :=
  match t.label with
  | some l => if l.length = 0 then t.value.length else l.length
  | none => t.value.length

/-- Loop body of the surface-to-cursor walk used during trigger detection
(`internal.tsx` lines 496-522): text tokens compare
`domCharCount + tokenLength >= domCursorPosition` and either finish with
`cursorSpacePosition + (domCursorPosition - domCharCount)` or advance both;
non-text tokens count `label?.length || value.length` DOM characters but only
1 cursor unit, finishing with `cursorSpacePosition + 1` when reached. -/
def domSpaceToCursorSpaceAux : List VirtualToken → Nat → Nat → Nat → Nat
  | [], _, _, cursorSpacePosition => cursorSpacePosition
  | token :: rest, domCursorPosition, domCharCount, cursorSpacePosition =>
    match token.type with
    | .text =>
      let tokenLength := token.value.length
      if domCursorPosition ≤ domCharCount + tokenLength then
        cursorSpacePosition + (domCursorPosition - domCharCount)
      else domSpaceToCursorSpaceAux rest domCursorPosition (domCharCount + tokenLength) (cursorSpacePosition + tokenLength)
    | _ =>
      let domLength := jsLabelLengthOrValue token
      if domCursorPosition ≤ domCharCount + domLength then cursorSpacePosition + 1
      else domSpaceToCursorSpaceAux rest domCursorPosition (domCharCount + domLength) (cursorSpacePosition + 1)

/-- The surface-to-cursor conversion performed inside
`handleEditableElementKeyDown` (`internal.tsx` lines 496-522). -/
def domSpaceToCursorSpace (tokens : List VirtualToken) (domCursorPosition : Nat) : Nat :=
  domSpaceToCursorSpaceAux tokens domCursorPosition 0 0

/-- On an all-text token array the cursor-to-surface walk is a shifted
identity: with accumulators `d`, `c` and target `p` satisfying
`p - c ≤ totalCursorLength T` it returns `d + (p - c)`. -/
theorem cursorSpaceToDomSpaceAux_allText :
    ∀ (T : List VirtualToken), (∀ t ∈ T, t.type = .text) →
      ∀ (p d c : Nat), p - c ≤ totalCursorLength T →
        cursorSpaceToDomSpaceAux T p d c = d + (p - c) := by
  intro T
  induction T with
  | nil =>
    intro _ p d c hle
    simp [totalCursorLength] at hle
    simp [cursorSpaceToDomSpaceAux, hle]
  | cons t rest ih =>
    intro hall p d c hle
    have ht : t.type = .text := hall t (List.mem_cons_self t rest)
    have hrest : ∀ x ∈ rest, x.type = .text := fun x hx => hall x (List.mem_cons_of_mem t hx)
    have hsum : totalCursorLength (t :: rest) = t.value.length + totalCursorLength rest := by
      simp [totalCursorLength, virtualTokenCursorLength, ht]
    rw [hsum] at hle
    by_cases hpc : p ≤ c
    · have : p - c = 0 := Nat.sub_eq_zero_of_le hpc
      simp [cursorSpaceToDomSpaceAux, hpc, this]
    · push_neg at hpc
      by_cases hrem : p - c ≤ t.value.length
      · simp [cursorSpaceToDomSpaceAux, Nat.not_le.mpr hpc, ht, hrem]
      · push_neg at hrem
        have hrec := ih hrest p (d + t.value.length) (c + t.value.length) (by omega)
        simp only [cursorSpaceToDomSpaceAux, Nat.not_le.mpr hpc, if_false, ht]
        simp only [Nat.not_le.mpr hrem, if_false]
        rw [hrec]
        omega

/-- On an all-text token array the surface-to-cursor walk is a shifted
identity: with accumulators `dcc`, `csp` and target `dcp` satisfying
`dcp - dcc ≤ totalCursorLength T` it returns `csp + (dcp - dcc)`. -/
theorem domSpaceToCursorSpaceAux_allText :
    ∀ (T : List VirtualToken), (∀ t ∈ T, t.type = .text) →
      ∀ (dcp dcc csp : Nat), dcp - dcc ≤ totalCursorLength T →
        domSpaceToCursorSpaceAux T dcp dcc csp = csp + (dcp - dcc) := by
  intro T
  induction T with
  | nil =>
    intro _ dcp dcc csp hle
    simp [totalCursorLength] at hle
    simp [domSpaceToCursorSpaceAux, hle]
  | cons t rest ih =>
    intro hall dcp dcc csp hle
    have ht : t.type = .text := hall t (List.mem_cons_self t rest)
    have hrest : ∀ x ∈ rest, x.type = .text := fun x hx => hall x (List.mem_cons_of_mem t hx)
    have hsum : totalCursorLength (t :: rest) = t.value.length + totalCursorLength rest := by
      simp [totalCursorLength, virtualTokenCursorLength, ht]
    rw [hsum] at hle
    by_cases hin : dcp ≤ dcc + t.value.length
    · simp [domSpaceToCursorSpaceAux, ht, hin]
    · push_neg at hin
      have hrec := ih hrest dcp (dcc + t.value.length) (csp + t.value.length) (by omega)
      simp only [domSpaceToCursorSpaceAux, ht, Nat.not_le.mpr hin, if_false]
      rw [hrec]
      omega

/-- C1 (amended): on a virtual token array consisting solely of Text tokens,
converting a cursor-space position `p ≤ totalCursorLength T` to a surface
offset with `cursorSpaceToDomSpace` and back with the surface-to-cursor walk
of the trigger-detection path yields `p` again.  (With Reference/Mode tokens
present the two walks use inconsistent surface metrics — 0 versus label
length — and the round trip fails; see the counterexample.) -/
theorem cursor_surface_roundtrip_allText (T : List VirtualToken) (p : Nat)
    (hall : ∀ t ∈ T, t.type = .text) (hp : p ≤ totalCursorLength T) :
    domSpaceToCursorSpace T (cursorSpaceToDomSpace T p) = p := by
  have h1 : cursorSpaceToDomSpace T p = p := by
    unfold cursorSpaceToDomSpace
    rw [cursorSpaceToDomSpaceAux_allText T hall p 0 0 (by simpa using hp)]
    omega
  rw [h1]
  unfold domSpaceToCursorSpace
  rw [domSpaceToCursorSpaceAux_allText T hall p 0 0 (by simpa using hp)]
  omega

/-- Witness for the amended C1 theorem at a concrete all-text array. -/
theorem cursor_surface_roundtrip_allText_witness :
    domSpaceToCursorSpace [mkText "ab", mkText "cde"]
      (cursorSpaceToDomSpace [mkText "ab", mkText "cde"] 3) = 3 :=
  cursor_surface_roundtrip_allText [mkText "ab", mkText "cde"] 3
    (by decide) (by decide)

/-- C1 counterexample: for the array holding a single Reference token
(cursor-space total length 1) and position `p = 0`, the round trip returns 1,
not 0 — `cursorSpaceToDomSpace` gives atomic widgets surface length 0 while
the trigger-detection walk gives them their label length. -/
theorem cursor_surface_roundtrip_fails_on_reference :
    domSpaceToCursorSpace [⟨.reference, "j", some "j", some "j"⟩]
      (cursorSpaceToDomSpace [⟨.reference, "j", some "j", some "j"⟩] 0) ≠ 0 := by
  decide

/-! ### Published token model (`interfaces.ts`) and serialization -/

/-- `PromptInputProps.InputToken` from `interfaces.ts`:
`TextToken { type: 'text', value }` or
`ReferenceToken { type: 'reference', id, label, value }`. -/
inductive InputToken where
  | text (value : String)
  | reference (id : String) (label : String) (value : String)
deriving DecidableEq, Repr

/-- `Array.prototype.join('')`: in-order concatenation of a list of strings. -/
def joinStrings : List String → String
  | [] => ""
  | s :: rest => s ++ joinStrings rest

/-- `joinStrings` distributes over list append. -/
theorem joinStrings_append (l1 l2 : List String) :
    joinStrings (l1 ++ l2) = joinStrings l1 ++ joinStrings l2 := by
  induction l1 with
  | nil => simp [joinStrings, String.empty_append]
  | cons s rest ih => simp [joinStrings, ih, String.append_assoc]

/-- The per-token contribution of `getPromptText`
(`src/prompt-input/token-utils.tsx` lines 225-236): text contributes
`token.value || ''`; a reference contributes `token.label || ''` when
`labelsOnly` and `token.value || ''` otherwise; mode contributes `''`. -/
def promptTextContribution (labelsOnly : Bool) (token : VirtualToken) : String :=
  match token.type with
  | .text => token.value
  | .reference => if labelsOnly then token.label.getD "" else token.value
  | .mode => ""

/-- `getPromptText(tokens, labelsOnly)` from
`src/prompt-input/token-utils.tsx` lines 220-238: returns `''` on an empty
array, else maps each token to its contribution and joins with `''`. -/
def getPromptText (tokens : List VirtualToken) (labelsOnly : Bool) : String :=
  if tokens.length = 0 then ""
  else joinStrings (tokens.map (promptTextContribution labelsOnly))

/-- `getPromptText` equals the join of the per-token contributions (the
empty-array early return coincides with the join of the empty list). -/
theorem getPromptText_eq_join (tokens : List VirtualToken) (labelsOnly : Bool) :
    getPromptText tokens labelsOnly =
      joinStrings (tokens.map (promptTextContribution labelsOnly)) := by
  cases tokens with
  | nil => simp [getPromptText, joinStrings]
  | cons t rest => simp [getPromptText]

/-- C5: serialization is the in-order concatenation of Text fragments and
Reference values; a Mode token contributes the empty string wherever it sits;
the worked example serializes to `"Hi <ref>J</ref>"` and, labels-only, to
`"Hi J"`. -/
theorem serialize_spec :
    getPromptText [⟨.text, "Hi ", none, none⟩, ⟨.reference, "<ref>J</ref>", some "J", none⟩] false
        = "Hi <ref>J</ref>" ∧
    getPromptText [⟨.text, "Hi ", none, none⟩, ⟨.reference, "<ref>J</ref>", some "J", none⟩] true
        = "Hi J" ∧
    ∀ (v : String) (l i : Option String) (pre post : List VirtualToken) (b : Bool),
      getPromptText (pre ++ ⟨.mode, v, l, i⟩ :: post) b = getPromptText (pre ++ post) b := by
  refine ⟨by decide, by decide, ?_⟩
  intro v l i pre post b
  rw [getPromptText_eq_join, getPromptText_eq_join]
  simp only [List.map_append, List.map_cons, joinStrings_append, joinStrings,
    promptTextContribution]
  rw [String.empty_append]

/-! ### Trigger validity (`handleEditableElementKeyDown`, `internal.tsx` 524-546) -/

/-- The character class of the JavaScript regular expression `\s`
(ECMAScript WhiteSpace plus LineTerminator). -/
def jsWhitespace (c : Char) : Bool :=
  decide (c = ' ') || decide (c = '\t') || decide (c = '\n') || decide (c = '\x0b') ||
  decide (c = '\x0c') || decide (c = '\r') || decide (c = ' ') || decide (c = ' ') ||
  (decide (' ' ≤ c) && decide (c ≤ ' ')) || decide (c = ' ') ||
  decide (c = ' ') || decide (c = ' ') || decide (c = ' ') ||
  decide (c = '　') || decide (c = '﻿')

/-- `internal.tsx` lines 524-532: the text of the token array in cursor
space — text tokens contribute their value, Reference/Mode tokens contribute
the single character `'￼'`. -/
def buildTextInCursorSpace (tokens : List VirtualToken) : String :=
  joinStrings (tokens.map (fun t =>
    match t.type with
    | .text => t.value
    | _ => "￼"))

/-- JavaScript string indexing `s[i]` (undefined when out of range). -/
def charAt? (s : String) (i : Nat) : Option Char :=
  s.data.get? i

/-- The positional-validity check of `handleEditableElementKeyDown`
(`internal.tsx` lines 534-546): a start-anchored (`useAtStart`) menu is valid
at position 0, or position 1 when `virtualTokens[0]?.type === 'mode'`; a free
menu is valid at position 0 or when `/\s/.test(charBefore || '')` holds for
the character before the position in the cursor-space text. -/
def isValidTriggerPosition (virtualTokens : List VirtualToken) (useAtStart : Bool)
    (cursorSpacePosition : Nat) : Bool :=
  if useAtStart then
    let hasModeToken :=
      match virtualTokens with
      | t :: _ => decide (t.type = .mode)
      | [] => false
    decide (cursorSpacePosition = 0) || (hasModeToken && decide (cursorSpacePosition = 1))
  else
    let textInCursorSpace := buildTextInCursorSpace virtualTokens
    decide (cursorSpacePosition = 0) ||
      (match charAt? textInCursorSpace (cursorSpacePosition - 1) with
       | some c => jsWhitespace c
       | none => false)

/-- C6: a trigger keystroke is positionally valid exactly as specified —
always at position 0; not at position 3 of `"abc"` for a free menu; at
position 3 of `"ab "` (directly after a space) for a free menu; for a
start-anchored menu never at positions ≥ 2, and at position 1 exactly when a
Mode token occupies slot 0. -/
theorem trigger_position_validity :
    (∀ (T : List VirtualToken) (u : Bool), isValidTriggerPosition T u 0 = true) ∧
    isValidTriggerPosition [mkText "abc"] false 3 = false ∧
    isValidTriggerPosition [mkText "ab "] false 3 = true ∧
    (∀ (T : List VirtualToken) (p : Nat), 2 ≤ p → isValidTriggerPosition T true p = false) ∧
    (∀ (t : VirtualToken) (rest : List VirtualToken), t.type = .mode →
      isValidTriggerPosition (t :: rest) true 1 = true) ∧
    (∀ (t : VirtualToken) (rest : List VirtualToken), t.type ≠ .mode →
      isValidTriggerPosition (t :: rest) true 1 = false) := by
  refine ⟨?_, by decide, by decide, ?_, ?_, ?_⟩
  · intro T u
    cases u <;> simp [isValidTriggerPosition]
  · intro T p hp
    have h0 : p ≠ 0 := by omega
    have h1 : p ≠ 1 := by omega
    simp [isValidTriggerPosition, h0, h1]
  · intro t rest ht
    simp [isValidTriggerPosition, ht]
  · intro t rest ht
    simp [isValidTriggerPosition, ht]

/-- Witness for C6: instantiates every hypothesis-bearing conjunct at a
concrete input. -/
theorem trigger_position_validity_witness :
    isValidTriggerPosition [mkText "abc"] true 2 = false ∧
    isValidTriggerPosition [⟨.mode, "m", some "m", some "m"⟩] true 1 = true ∧
    isValidTriggerPosition [mkText "abc"] true 1 = false :=
  ⟨trigger_position_validity.2.2.2.1 [mkText "abc"] 2 (by decide),
   trigger_position_validity.2.2.2.2.1 ⟨.mode, "m", some "m", some "m"⟩ [] (by decide),
   trigger_position_validity.2.2.2.2.2 (mkText "abc") [] (by decide)⟩

/-! ### Token deletion at the cursor (`handleDeleteTokenAtCursor`, `internal.tsx` 871-913) -/

/-- Length metric of the deletion loop:
`token.type === 'text' ? token.value.length : 1`. -/
def inputTokenLength : InputToken → Nat
  | .text v => v.length
  | .reference _ _ _ => 1

/-- Sum of `inputTokenLength` over a published token array. -/
def inputTokensLength (tokens : List InputToken) : Nat :=
  (tokens.map inputTokenLength).sum

/-- `token.type === 'text'` on a published token. -/
def isTextInputToken : InputToken → Bool
  | .text _ => true
  | .reference _ _ _ => false

/-- Search loop of `handleDeleteTokenAtCursor` (`internal.tsx` 879-897):
walks the tokens with index `i` and running `currentPos`; when
`currentPos < cursorPosition ≤ currentPos + tokenLength` holds for a
non-text token that token's index is selected; when it holds for a text
token the loop simply advances (no deletion inside text); otherwise a
non-text token starting exactly at `cursorPosition` is selected. -/
def findDeleteIndexAux : List InputToken → Nat → Nat → Nat → Option Nat
  | [], _, _, _ => none
  | token :: rest, cursorPosition, i, currentPos =>
    let tokenLength := inputTokenLength token
    if currentPos < cursorPosition ∧ cursorPosition ≤ currentPos + tokenLength then
      if isTextInputToken token then
        findDeleteIndexAux rest cursorPosition (i + 1) (currentPos + tokenLength)
      else some i
    else if cursorPosition = currentPos ∧ isTextInputToken token = false then
      some i
    else findDeleteIndexAux rest cursorPosition (i + 1) (currentPos + tokenLength)

/-- `handleDeleteTokenAtCursor` (`internal.tsx` 871-913): finds the token at
the cursor and, when it is a non-text token, publishes the array with that
single index spliced out (`newTokens.splice(tokenIndexToDelete, 1)`);
returns `none` when nothing is deleted. -/
def handleDeleteTokenAtCursor (tokens : List InputToken) (cursorPosition : Nat) :
    Option (List InputToken) :=
  match findDeleteIndexAux tokens cursorPosition 0 0 with
  | some i => some (tokens.take i ++ tokens.drop (i + 1))
  | none => none

/-- The deletion search run at the position directly after a Reference token
selects exactly that token's index, for any accumulator values. -/
theorem findDeleteIndexAux_after_reference :
    ∀ (pre : List InputToken) (i c : Nat) (post : List InputToken) (id label value : String),
      findDeleteIndexAux (pre ++ .reference id label value :: post)
        (c + inputTokensLength pre + 1) i c = some (i + pre.length) := by
  intro pre
  induction pre with
  | nil =>
    intro i c post id label value
    have hzero : inputTokensLength ([] : List InputToken) = 0 := by
      simp [inputTokensLength]
    rw [hzero]
    simp only [List.nil_append, findDeleteIndexAux, inputTokenLength]
    have hcond : c < c + 0 + 1 ∧ c + 0 + 1 ≤ c + 1 := by omega
    simp [hcond, isTextInputToken]
  | cons t pre' ih =>
    intro i c post id label value
    have hsum : inputTokensLength (t :: pre') = inputTokenLength t + inputTokensLength pre' := by
      simp [inputTokensLength]
    have hnotin : ¬(c < c + inputTokensLength (t :: pre') + 1 ∧
        c + inputTokensLength (t :: pre') + 1 ≤ c + inputTokenLength t) := by
      rw [hsum]; omega
    have hne : ¬(c + inputTokensLength (t :: pre') + 1 = c ∧ isTextInputToken t = false) := by
      intro h
      omega
    simp only [List.cons_append, findDeleteIndexAux, hnotin, if_false, hne]
    have hcursor : c + inputTokensLength (t :: pre') + 1
        = (c + inputTokenLength t) + inputTokensLength pre' + 1 := by
      rw [hsum]; omega
    rw [hcursor]
    simp only [List.append_eq]
    rw [ih (i + 1) (c + inputTokenLength t) post id label value]
    simp [List.length_cons]
    omega

/-- C7: with the caret immediately after a Reference token (cursor position
= length of everything before it + 1), `handleDeleteTokenAtCursor` removes
exactly that Reference token: the published array is the original with only
that token spliced out — every token before and after it is untouched. -/
theorem delete_after_reference_removes_exactly_that_token
    (pre post : List InputToken) (id label value : String) :
    handleDeleteTokenAtCursor (pre ++ .reference id label value :: post)
      (inputTokensLength pre + 1) = some (pre ++ post) := by
  unfold handleDeleteTokenAtCursor
  have h := findDeleteIndexAux_after_reference pre 0 0 post id label value
  simp only [Nat.zero_add] at h
  rw [h]
  have htake : (pre ++ InputToken.reference id label value :: post).take pre.length = pre :=
    List.take_left pre (InputToken.reference id label value :: post)
  have hdrop : (pre ++ InputToken.reference id label value :: post).drop (pre.length + 1) = post := by
    have h1 : (pre ++ InputToken.reference id label value :: post).drop pre.length
        = InputToken.reference id label value :: post :=
      List.drop_left pre (InputToken.reference id label value :: post)
    have h2 : (pre ++ InputToken.reference id label value :: post).drop (pre.length + 1)
        = ((pre ++ InputToken.reference id label value :: post).drop pre.length).drop 1 := by
      rw [List.drop_drop, Nat.add_comm]
    rw [h2, h1]
    rfl
  simp [htake, hdrop]

/-! ### Menu selection commit (`handleMenuSelect`, `internal.tsx` 690-852) -/

/-- The chosen option (`option.option` in `handleMenuSelect`):
`value` and `label` are both optional strings. -/
structure MenuOption where
  value : Option String
  label : Option String
deriving DecidableEq, Repr

/-- JavaScript `a || b` on an optional string against a string default:
a missing or empty string falls through to the default. -/
def jsOr (a : Option String) (b : String) : String :=
  match a with
  | some s => if s = "" then b else s
  | none => b

/-- The Mode token built on a start-anchored commit (`internal.tsx` 715-720):
`{ type: 'mode', id: option.value || '', label: option.label || option.value || '',
value: option.value || '' }`. -/
def mkModeToken (option : MenuOption) : VirtualToken :=
  ⟨.mode, jsOr option.value "", some (jsOr option.label (jsOr option.value "")),
    some (jsOr option.value "")⟩

/-- The Reference token built on a free-menu commit (`internal.tsx` 757-762). -/
def mkReferenceToken (option : MenuOption) : VirtualToken :=
  ⟨.reference, jsOr option.value "", some (jsOr option.label (jsOr option.value "")),
    some (jsOr option.value "")⟩

/-- Search loop of the reference branch (`internal.tsx` 764-780): finds the
index and in-token offset of the virtual token containing
`menuTriggerPosition` (`currentPos <= trigger && trigger < currentPos + tokenLength`). -/
def findInsertIndexAux : List VirtualToken → Nat → Nat → Nat → Option (Nat × Nat)
  | [], _, _, _ => none
  | token :: rest, triggerPosition, i, currentPos =>
    let tokenLength := virtualTokenCursorLength token
    if currentPos ≤ triggerPosition ∧ triggerPosition < currentPos + tokenLength then
      some (i, triggerPosition - currentPos)
    else findInsertIndexAux rest triggerPosition (i + 1) (currentPos + tokenLength)

/-- Rebuild loop of the reference branch (`internal.tsx` 789-811): tokens
before `insertIndex` are kept; at `insertIndex` a Text token is split into
`value.substring(0, insertOffset)`, the new Reference token, and
`value.substring(insertOffset + triggerLength)` (a single space when that
remainder is empty), empty fragments being dropped; a non-text token at
`insertIndex` contributes nothing; tokens after are kept. -/
def spliceLoop (newToken : VirtualToken) (insertIndex insertOffset triggerLength : Nat) :
    List VirtualToken → Nat → List VirtualToken
  | [], _ => []
  | token :: rest, i =>
    if i < insertIndex then
      token :: spliceLoop newToken insertIndex insertOffset triggerLength rest (i + 1)
    else if i = insertIndex then
      (match token.type with
       | .text =>
         let beforeTrigger := token.value.take insertOffset
         let afterTrigger := token.value.drop (insertOffset + triggerLength)
         (if beforeTrigger ≠ "" then [mkText beforeTrigger] else []) ++ [newToken] ++
           (if afterTrigger ≠ "" then [mkText afterTrigger] else [mkText " "])
       | _ => []) ++ spliceLoop newToken insertIndex insertOffset triggerLength rest (i + 1)
    else token :: spliceLoop newToken insertIndex insertOffset triggerLength rest (i + 1)

/-- The free-menu (`!useAtStart`) branch of `handleMenuSelect`
(`internal.tsx` 755-816): splices a Reference token at the token containing
the trigger position (appending `[newToken, {text:' '}]` when no token
contains it) and sets the desired cursor to `menuTriggerPosition + 1 + 1`. -/
def handleMenuSelectReference (virtualTokens : List VirtualToken)
    (menuTriggerPosition : Nat) (filterText : String) (option : MenuOption) :
    List VirtualToken × Nat :=
  let triggerLength := 1 + filterText.length
  let newToken := mkReferenceToken option
  match findInsertIndexAux virtualTokens menuTriggerPosition 0 0 with
  | none => (virtualTokens ++ [newToken, mkText " "], menuTriggerPosition + 1 + 1)
  | some (insertIndex, insertOffset) =>
    (spliceLoop newToken insertIndex insertOffset triggerLength virtualTokens 0,
      menuTriggerPosition + 1 + 1)

/-- The start-anchored (`useAtStart`) branch of `handleMenuSelect`
(`internal.tsx` 713-754): builds a Mode token from the option; when a text
token exists, drops `triggerLength` characters from the first one and places
the Mode token first, either replacing an existing mode (slicing from after
the first text token) or inserting fresh (keeping the tokens before the first
text token); with no text token, prepends the Mode token to the non-mode
tokens.  Desired cursor is 1. -/
def handleMenuSelectMode (virtualTokens : List VirtualToken) (filterText : String)
    (option : MenuOption) : List VirtualToken × Nat :=
  let triggerLength := 1 + filterText.length
  let modeToken := mkModeToken option
  match virtualTokens.findIdx? (fun t => decide (t.type = .text)) with
  | some firstTextIndex =>
    let firstToken := virtualTokens.getD firstTextIndex (mkText "")
    let afterTrigger := firstToken.value.drop triggerLength
    let hasExistingMode := (virtualTokens.findIdx? (fun t => decide (t.type = .mode))).isSome
    if hasExistingMode then
      ([modeToken] ++ (if afterTrigger ≠ "" then [mkText afterTrigger] else []) ++
        virtualTokens.drop (firstTextIndex + 1), 1)
    else
      ([modeToken] ++ virtualTokens.take firstTextIndex ++
        (if afterTrigger ≠ "" then [mkText afterTrigger] else []) ++
        virtualTokens.drop (firstTextIndex + 1), 1)
  | none => ([modeToken] ++ virtualTokens.filter (fun t => decide (t.type ≠ .mode)), 1)

/-- The search of the reference branch locates the Text token containing
the trigger position: for a trigger `c + totalCursorLength pre + off` with
`off` inside the Text token following `pre`, it returns that token's index
and in-token offset `off` (no earlier token can contain the position, since
the token intervals are half-open). -/
theorem findInsertIndexAux_in_text :
    ∀ (pre : List VirtualToken) (i c : Nat) (v : String) (post : List VirtualToken)
      (off : Nat), off < v.length →
      findInsertIndexAux (pre ++ mkText v :: post) (c + totalCursorLength pre + off) i c
        = some (i + pre.length, off) := by
  intro pre
  induction pre with
  | nil =>
    intro i c v post off hoff
    have hzero : totalCursorLength ([] : List VirtualToken) = 0 := by
      simp [totalCursorLength]
    rw [hzero]
    simp only [List.nil_append, findInsertIndexAux]
    have hlen : virtualTokenCursorLength (mkText v) = v.length := by
      simp [virtualTokenCursorLength, mkText]
    rw [hlen]
    rw [if_pos (by omega)]
    simp
  | cons t pre' ih =>
    intro i c v post off hoff
    have hsum : totalCursorLength (t :: pre')
        = virtualTokenCursorLength t + totalCursorLength pre' := by
      simp [totalCursorLength]
    have hnotin : ¬(c ≤ c + totalCursorLength (t :: pre') + off ∧
        c + totalCursorLength (t :: pre') + off < c + virtualTokenCursorLength t) := by
      rw [hsum]; omega
    simp only [List.cons_append, findInsertIndexAux, hnotin, if_false]
    have hcursor : c + totalCursorLength (t :: pre') + off
        = (c + virtualTokenCursorLength t) + totalCursorLength pre' + off := by
      rw [hsum]; omega
    rw [hcursor]
    simp only [List.append_eq]
    rw [ih (i + 1) (c + virtualTokenCursorLength t) v post off hoff]
    simp [List.length_cons]
    omega

/-- Past the insertion index, the rebuild loop keeps every token. -/
theorem spliceLoop_past :
    ∀ (l : List VirtualToken) (nt : VirtualToken) (I off tl i : Nat), I < i →
      spliceLoop nt I off tl l i = l := by
  intro l
  induction l with
  | nil => intro nt I off tl i _; rfl
  | cons t rest ih =>
    intro nt I off tl i hIi
    simp only [spliceLoop]
    rw [if_neg (by omega), if_neg (by omega)]
    rw [ih nt I off tl (i + 1) (by omega)]

/-- The rebuild loop keeps the tokens before the insertion index, splits the
Text token at the index around the trigger+filter span (inserting the new
token, and a single trailing space exactly when nothing remains), and keeps
the tokens after. -/
theorem spliceLoop_at :
    ∀ (pre : List VirtualToken) (i : Nat) (v : String) (post : List VirtualToken)
      (nt : VirtualToken) (off tl : Nat),
      spliceLoop nt (i + pre.length) off tl (pre ++ mkText v :: post) i
        = pre ++ ((if v.take off ≠ "" then [mkText (v.take off)] else []) ++ [nt] ++
            (if v.drop (off + tl) ≠ "" then [mkText (v.drop (off + tl))] else [mkText " "]))
            ++ post := by
  intro pre
  induction pre with
  | nil =>
    intro i v post nt off tl
    simp only [List.length_nil, Nat.add_zero, List.nil_append, spliceLoop]
    rw [if_pos trivial]
    rw [spliceLoop_past post nt i off tl (i + 1) (by omega)]
    simp [mkText]
  | cons t pre' ih =>
    intro i v post nt off tl
    have hlt : i < i + (t :: pre').length := by simp
    simp only [List.cons_append, spliceLoop]
    rw [if_pos hlt]
    have harith : i + (t :: pre').length = (i + 1) + pre'.length := by
      simp [List.length_cons]; omega
    rw [harith]
    simp only [List.append_eq]
    rw [ih (i + 1) v post nt off tl]

/-- C3 (amended): a free-menu commit splices the Reference token into the
Text token containing the trigger position — tokens before and after are
kept, that token is split around the trigger+filter span, the remainder of
the token follows the Reference token, and a single trailing space is
inserted exactly when that remainder is empty; the desired cursor-space
position is always `triggerPosition + 2`; on `[{text:"hi @jo"}]` with
trigger position 3, filter `"jo"` and option value `"john"` the result is
`[{text:"hi "}, {reference john}, {text:" "}]` with desired cursor 5. -/
theorem reference_commit_spec :
    (∀ (vt : List VirtualToken) (p : Nat) (f : String) (o : MenuOption),
      (handleMenuSelectReference vt p f o).2 = p + 2) ∧
    (∀ (pre post : List VirtualToken) (v : String) (off : Nat) (f : String) (o : MenuOption),
      off < v.length →
      (handleMenuSelectReference (pre ++ mkText v :: post)
          (totalCursorLength pre + off) f o).1 =
        pre ++ ((if v.take off ≠ "" then [mkText (v.take off)] else []) ++
            [mkReferenceToken o] ++
            (if v.drop (off + (1 + f.length)) ≠ ""
             then [mkText (v.drop (off + (1 + f.length)))] else [mkText " "])) ++ post) ∧
    handleMenuSelectReference [mkText "hi @jo"] 3 "jo" ⟨some "john", none⟩ =
      ([mkText "hi ", ⟨.reference, "john", some "john", some "john"⟩, mkText " "], 5) := by
  refine ⟨?_, ?_, by decide⟩
  · intro vt p f o
    unfold handleMenuSelectReference
    cases h : findInsertIndexAux vt p 0 0 with
    | none => simp
    | some pair =>
      cases pair with
      | mk a b => simp
  · intro pre post v off f o hoff
    have hfind := findInsertIndexAux_in_text pre 0 0 v post off hoff
    simp only [Nat.zero_add] at hfind
    have hsplice := spliceLoop_at pre 0 v post (mkReferenceToken o) off (1 + f.length)
    simp only [Nat.zero_add] at hsplice
    simp only [handleMenuSelectReference, hfind]
    exact hsplice

/-- C3 counterexample: with text remaining after the trigger+filter span
(`[{text:"hi @jox"}]`, trigger position 3, filter `"jo"`), the commit places
that remainder (`"x"`) directly after the Reference token — no trailing
space is inserted, under either reading of the claimed output shape. -/
theorem reference_commit_no_trailing_space :
    (handleMenuSelectReference [mkText "hi @jox"] 3 "jo" ⟨some "john", none⟩).1 =
      [mkText "hi ", ⟨.reference, "john", some "john", some "john"⟩, mkText "x"] ∧
    (handleMenuSelectReference [mkText "hi @jox"] 3 "jo" ⟨some "john", none⟩).1 ≠
      [mkText "hi ", ⟨.reference, "john", some "john", some "john"⟩, mkText " ", mkText "x"] ∧
    (handleMenuSelectReference [mkText "hi @jox"] 3 "jo" ⟨some "john", none⟩).1 ≠
      [mkText "hi ", ⟨.reference, "john", some "john", some "john"⟩, mkText " x"] := by
  refine ⟨by decide, by decide, by decide⟩

/-- Witness for the amended C3 theorem: instantiates the split-and-splice
conjunct at a concrete multi-token array and trigger position. -/
theorem reference_commit_spec_witness :
    (handleMenuSelectReference
        ([⟨.reference, "r", some "r", some "r"⟩] ++ mkText "a @b c" :: [mkText "zz"])
        (totalCursorLength [⟨.reference, "r", some "r", some "r"⟩] + 2)
        "b" ⟨some "bob", none⟩).1 =
      [⟨.reference, "r", some "r", some "r"⟩] ++
        ((if ("a @b c".take 2 : String) ≠ "" then [mkText ("a @b c".take 2)] else []) ++
          [mkReferenceToken ⟨some "bob", none⟩] ++
          (if ("a @b c".drop (2 + (1 + ("b" : String).length)) : String) ≠ ""
           then [mkText ("a @b c".drop (2 + (1 + ("b" : String).length)))]
           else [mkText " "])) ++ [mkText "zz"] :=
  reference_commit_spec.2.1 [⟨.reference, "r", some "r", some "r"⟩] [mkText "zz"]
    "a @b c" 2 "b" ⟨some "bob", none⟩ (by decide)

/-- Number of Mode tokens in a virtual token array. -/
def countModeTokens (tokens : List VirtualToken) : Nat :=
  (tokens.filter (fun t => decide (t.type = .mode))).length

/-- The data-model Mode invariant: at most one Mode token, always first when
present — equivalently, no token after position 0 is a Mode token. -/
def modeInvariant : List VirtualToken → Bool
  | [] => true
  | _ :: rest => rest.all (fun t => decide (t.type ≠ .mode))

/-- An array of non-Mode tokens contains zero Mode tokens. -/
theorem countModeTokens_eq_zero {l : List VirtualToken}
    (h : ∀ t ∈ l, t.type ≠ .mode) : countModeTokens l = 0 := by
  unfold countModeTokens
  rw [List.length_eq_zero]
  rw [List.filter_eq_nil_iff]
  intro a ha
  simpa using h a ha

/-- Under the Mode invariant, every token after a positive index is not a
Mode token. -/
theorem modeInvariant_drop {T : List VirtualToken} (hInv : modeInvariant T = true)
    (k : Nat) : ∀ x ∈ T.drop (k + 1), x.type ≠ .mode := by
  intro x hx
  cases T with
  | nil => simp at hx
  | cons t rest =>
    have hx' : x ∈ rest := List.mem_of_mem_drop (by simpa [List.drop_succ_cons] using hx)
    have h1 : rest.all (fun t => decide (t.type ≠ .mode)) = true := hInv
    have h2 := List.all_eq_true.mp h1 x hx'
    simpa using h2

/-- If `findIdx?` finds no index, the predicate fails on every element,
independently of the start index. -/
theorem findIdx?_none_all_false {α : Type} (p : α → Bool) :
    ∀ (l : List α) (i : Nat), List.findIdx? p l i = none → ∀ x ∈ l, p x = false := by
  intro l
  induction l with
  | nil => intro i _ x hx; simp at hx
  | cons a rest ih =>
    intro i hnone x hx
    rw [List.findIdx?_cons] at hnone
    by_cases hpa : p a
    · simp [hpa] at hnone
    · rcases List.mem_cons.mp hx with rfl | hx'
      · simpa using hpa
      · refine ih (i + 1) ?_ x hx'
        simpa [hpa] using hnone

/-- Core shape lemma for the start-anchored commit: under the Mode
invariant the result is the freshly built Mode token followed by Mode-free
tokens. -/
theorem handleMenuSelectMode_shape (T : List VirtualToken) (f : String) (o : MenuOption)
    (hInv : modeInvariant T = true) :
    ∃ X, (handleMenuSelectMode T f o).1 = mkModeToken o :: X ∧
      ∀ x ∈ X, x.type ≠ .mode := by
  unfold handleMenuSelectMode
  cases htext : T.findIdx? (fun t => decide (t.type = .text)) with
  | none =>
    refine ⟨T.filter (fun t => decide (t.type ≠ .mode)), by simp, ?_⟩
    intro x hx
    have := (List.mem_filter.mp hx).2
    simpa using this
  | some firstTextIndex =>
    by_cases hmode : (T.findIdx? (fun t => decide (t.type = .mode))).isSome
    · refine ⟨(if (T.getD firstTextIndex (mkText "")).value.drop (1 + f.length) ≠ ""
          then [mkText ((T.getD firstTextIndex (mkText "")).value.drop (1 + f.length))] else []) ++
          T.drop (firstTextIndex + 1), by simp [hmode], ?_⟩
      intro x hx
      rcases List.mem_append.mp hx with hx1 | hx2
      · by_cases hne : (T.getD firstTextIndex (mkText "")).value.drop (1 + f.length) ≠ ""
        · rw [if_pos hne] at hx1
          rcases List.mem_singleton.mp hx1 with rfl
          simp [mkText]
        · rw [if_neg hne] at hx1
          simp at hx1
      · exact modeInvariant_drop hInv firstTextIndex x hx2
    · have hnomode : ∀ x ∈ T, x.type ≠ .mode := by
        intro x hx
        have h0 : T.findIdx? (fun t => decide (t.type = .mode)) = none :=
          Option.not_isSome_iff_eq_none.mp hmode
        have := findIdx?_none_all_false (fun t => decide (t.type = .mode)) T 0 h0 x hx
        simpa using this
      refine ⟨T.take firstTextIndex ++
          (if (T.getD firstTextIndex (mkText "")).value.drop (1 + f.length) ≠ ""
          then [mkText ((T.getD firstTextIndex (mkText "")).value.drop (1 + f.length))] else []) ++
          T.drop (firstTextIndex + 1), by simp [hmode], ?_⟩
      intro x hx
      rcases List.mem_append.mp hx with hx12 | hx3
      · rcases List.mem_append.mp hx12 with hx1 | hx2
        · exact hnomode x (List.take_subset firstTextIndex T hx1)
        · by_cases hne : (T.getD firstTextIndex (mkText "")).value.drop (1 + f.length) ≠ ""
          · rw [if_pos hne] at hx2
            rcases List.mem_singleton.mp hx2 with rfl
            simp [mkText]
          · rw [if_neg hne] at hx2
            simp at hx2
      · exact modeInvariant_drop hInv firstTextIndex x hx3

/-- C4 (amended): on any virtual token array satisfying the Mode invariant
(at most one Mode token, first when present), a start-anchored commit
produces an array with exactly one Mode token, sitting first and equal to
the selection, and the invariant is preserved (so any sequence of commits
maintains it); after a second consecutive commit the array again holds
exactly one Mode token, equal to the second selection. -/
theorem mode_commit_invariant (T : List VirtualToken) (f f2 : String) (o o2 : MenuOption)
    (hInv : modeInvariant T = true) :
    countModeTokens (handleMenuSelectMode T f o).1 = 1 ∧
    (handleMenuSelectMode T f o).1.head? = some (mkModeToken o) ∧
    modeInvariant (handleMenuSelectMode T f o).1 = true ∧
    countModeTokens (handleMenuSelectMode (handleMenuSelectMode T f o).1 f2 o2).1 = 1 ∧
    (handleMenuSelectMode (handleMenuSelectMode T f o).1 f2 o2).1.head?
      = some (mkModeToken o2) := by
  obtain ⟨X, hX, hXfree⟩ := handleMenuSelectMode_shape T f o hInv
  have hcount : countModeTokens (handleMenuSelectMode T f o).1 = 1 := by
    rw [hX]
    unfold countModeTokens
    rw [List.filter_cons]
    have hm : decide ((mkModeToken o).type = TokenType.mode) = true := by
      simp [mkModeToken]
    rw [if_pos (by simpa using hm)]
    have : countModeTokens X = 0 := countModeTokens_eq_zero hXfree
    unfold countModeTokens at this
    simp [this]
  have hInv' : modeInvariant (handleMenuSelectMode T f o).1 = true := by
    rw [hX]
    unfold modeInvariant
    rw [List.all_eq_true]
    intro x hx
    simpa using hXfree x hx
  obtain ⟨X2, hX2, hX2free⟩ := handleMenuSelectMode_shape (handleMenuSelectMode T f o).1 f2 o2 hInv'
  have hcount2 : countModeTokens (handleMenuSelectMode (handleMenuSelectMode T f o).1 f2 o2).1 = 1 := by
    rw [hX2]
    unfold countModeTokens
    rw [List.filter_cons]
    rw [if_pos (by simp [mkModeToken])]
    have : countModeTokens X2 = 0 := countModeTokens_eq_zero hX2free
    unfold countModeTokens at this
    simp [this]
  exact ⟨hcount, by rw [hX]; rfl, hInv', hcount2, by rw [hX2]; rfl⟩

/-- Witness for the amended C4 theorem at a concrete invariant-satisfying
array. -/
theorem mode_commit_invariant_witness :
    countModeTokens (handleMenuSelectMode [⟨.mode, "m", some "m", some "m"⟩, mkText "abc"]
      "x" ⟨some "b", none⟩).1 = 1 ∧
    (handleMenuSelectMode [⟨.mode, "m", some "m", some "m"⟩, mkText "abc"]
      "x" ⟨some "b", none⟩).1.head? = some (mkModeToken ⟨some "b", none⟩) ∧
    modeInvariant (handleMenuSelectMode [⟨.mode, "m", some "m", some "m"⟩, mkText "abc"]
      "x" ⟨some "b", none⟩).1 = true ∧
    countModeTokens (handleMenuSelectMode (handleMenuSelectMode
      [⟨.mode, "m", some "m", some "m"⟩, mkText "abc"] "x" ⟨some "b", none⟩).1
      "" ⟨some "c", none⟩).1 = 1 ∧
    (handleMenuSelectMode (handleMenuSelectMode
      [⟨.mode, "m", some "m", some "m"⟩, mkText "abc"] "x" ⟨some "b", none⟩).1
      "" ⟨some "c", none⟩).1.head? = some (mkModeToken ⟨some "c", none⟩) :=
  mode_commit_invariant [⟨.mode, "m", some "m", some "m"⟩, mkText "abc"] "x" ""
    ⟨some "b", none⟩ ⟨some "c", none⟩ (by decide)

/-- C4 counterexample: on an arbitrary array violating the Mode invariant
(`[{text:"xyz"}, mode]`, Mode token not first), a single start-anchored
commit already yields TWO Mode tokens, refuting the claim for arbitrary
input arrays. -/
theorem mode_commit_invariant_fails_unconstrained :
    countModeTokens (handleMenuSelectMode [mkText "xyz", ⟨.mode, "m", some "m", some "m"⟩]
      "" ⟨some "a", none⟩).1 = 2 := by
  decide

/-! ### Surface model: DOM nodes, render and extract
(`src/prompt-input/tokens/token-utils.tsx`) -/

/-- A node of the editable surface: a text node, or an element carrying the
`data-token-type` attribute (`none` when absent), the `data-token-id` and
`data-token-value` attributes (`none` when absent), its
`contentEditable === 'false'` flag, and its child nodes. -/
inductive DomNode where
  | text (content : String)
  | elem (tokenType : Option String) (dataId : Option String) (dataValue : Option String)
      (notEditable : Bool) (children : List DomNode)

/-- `node.textContent` over a list of nodes: concatenation of all text
descendants in document order. -/
def textContentList : List DomNode → String
  | [] => ""
  | .text c :: rest => c ++ textContentList rest
  | .elem _ _ _ _ cs :: rest => textContentList cs ++ textContentList rest

/-- Modelled from the spec: the `Token` component (`src/token/internal`,
not under `src/`) renders the atomic inline widget; per the spec's data
model the `label` field is the widget's display text, so its rendered
subtree is modelled as a single text node holding the label. -/
def renderedTokenWidget (label : String) : List DomNode :=
  [.text label]

/-- The text-token renderer of `tokenRenderers`
(`tokens/token-utils.tsx` 37-41): appends a text node only when
`token.value` is truthy (non-empty). -/
def renderTextToken (v : String) : List DomNode :=
  if v = "" then [] else [.text v]

/-- Per-token rendering (`tokenRenderers`, `tokens/token-utils.tsx` 33-53):
a non-empty text token becomes a text node; a reference token becomes a
`contentEditable=false` span with `data-token-type="reference"`,
`data-token-id` and `data-token-value` attributes, containing the rendered
widget. -/
def renderInputToken : InputToken → List DomNode
  | .text v => renderTextToken v
  | .reference id label value =>
    [.elem (some "reference") (some id) (some value) true (renderedTokenWidget label)]

/-- `renderModeToken` (`tokens/token-utils.tsx` 58-69): the Mode widget span
with `data-token-type="mode"`. -/
structure ModeToken where
  id : String
  label : String
  value : String
deriving DecidableEq, Repr

/-- The DOM span produced by `renderModeToken`. -/
def renderModeTokenDom (m : ModeToken) : DomNode :=
  .elem (some "mode") (some m.id) (some m.value) true (renderedTokenWidget m.label)

/-- `ensureCursorPlacement` (`tokens/token-utils.tsx` 90-94): appends an
empty text node when the last child is an element node. -/
def ensureCursorPlacement (ns : List DomNode) : List DomNode :=
  match ns.getLast? with
  | some (.elem _ _ _ _ _) => ns ++ [.text ""]
  | _ => ns

/-- `renderTokensToDOM` (`tokens/token-utils.tsx` 101-129): clears the
target, renders the mode widget first when present, then each token in
order, and finally ensures an end-of-content cursor slot. -/
def renderTokensToDOM (tokens : List InputToken) (mode : Option ModeToken) : List DomNode :=
  ensureCursorPlacement
    ((match mode with
      | some m => [renderModeTokenDom m]
      | none => []) ++ (tokens.map renderInputToken).flatten)

/-- `flushTextBuffer` (`tokens/token-utils.tsx` 178-183): pushes the buffer
as a Text token when non-empty and clears it. -/
def flushTextBuffer : List InputToken × String → List InputToken × String
  | (tokens, buf) => if buf = "" then (tokens, buf) else (tokens ++ [.text buf], "")

/-- The reference extractor of `tokenExtractors`
(`tokens/token-utils.tsx` 150-164): after flushing the text buffer it builds
`{ type:'reference', id: data.id || '', label: element.textContent || '',
value: data.value || element.textContent || '' }`. -/
def referenceExtractor (dataId dataValue : Option String) (textContent : String) : InputToken :=
  .reference (jsOr dataId "") textContent (jsOr dataValue textContent)

/-- The `processNode` walk of `domToTokenArray`
(`tokens/token-utils.tsx` 185-207) threaded over a node list: text nodes
accumulate into the buffer; an element whose `data-token-type` is `"mode"`
only flushes the buffer (mode is tracked out-of-band); one typed
`"reference"` flushes and appends the extracted Reference token; any other
element is recursed into. -/
def processNodeList : List InputToken × String → List DomNode → List InputToken × String
  | st, [] => st
  | st, .text c :: rest => processNodeList (st.1, st.2 ++ c) rest
  | st, .elem tokenType dataId dataValue _ cs :: rest =>
    let st' :=
      if tokenType = some "mode" then flushTextBuffer st
      else if tokenType = some "reference" then
        let st1 := flushTextBuffer st
        (st1.1 ++ [referenceExtractor dataId dataValue (textContentList cs)], st1.2)
      else processNodeList st cs
    processNodeList st' rest

/-- `domToTokenArray` (`tokens/token-utils.tsx` 170-211): processes the
element's child nodes from an empty state and flushes the final buffer. -/
def domToTokenArray (ns : List DomNode) : List InputToken :=
  (flushTextBuffer (processNodeList ([], "") ns)).1

/-- No two adjacent Text tokens in a published token array. -/
def noTwoAdjacentTextTokens : List InputToken → Bool
  | [] => true
  | [_] => true
  | t1 :: t2 :: rest =>
    !(isTextInputToken t1 && isTextInputToken t2) && noTwoAdjacentTextTokens (t2 :: rest)

/-- A token's `value` field is non-empty. -/
def tokenValueNonempty : InputToken → Bool
  | .text v => !(v == "")
  | .reference _ _ v => !(v == "")

/-- `jsOr (some s) ""` is `s` (both sides are `""` when `s` is empty). -/
theorem jsOr_some_default_empty (s : String) : jsOr (some s) "" = s := by
  unfold jsOr
  by_cases h : s = "" <;> simp [h]

/-- Flushing never leaves a buffer behind. -/
theorem flushTextBuffer_snd (st : List InputToken × String) : (flushTextBuffer st).2 = "" := by
  obtain ⟨toks, buf⟩ := st
  unfold flushTextBuffer
  by_cases h : buf = "" <;> simp [h]

/-- Flushing an empty buffer is the identity. -/
theorem flushTextBuffer_empty (toks : List InputToken) :
    flushTextBuffer (toks, "") = (toks, "") := by
  simp [flushTextBuffer]

/-- Processing distributes over appended node lists. -/
theorem processNodeList_append :
    ∀ (ns1 ns2 : List DomNode) (st : List InputToken × String),
      processNodeList st (ns1 ++ ns2) = processNodeList (processNodeList st ns1) ns2 := by
  intro ns1
  induction ns1 with
  | nil => intro ns2 st; simp [processNodeList]
  | cons n rest ih =>
    intro ns2 st
    cases n with
    | text c => simp only [List.cons_append, processNodeList]; exact ih ns2 _
    | elem tt di dv ne cs => simp only [List.cons_append, processNodeList]; exact ih ns2 _

/-- The trailing empty text slot added by `ensureCursorPlacement` does not
change extraction. -/
theorem domToTokenArray_ensureCursorPlacement (ns : List DomNode) :
    domToTokenArray (ensureCursorPlacement ns) = domToTokenArray ns := by
  unfold ensureCursorPlacement
  cases h : ns.getLast? with
  | none => rfl
  | some n =>
    cases n with
    | text c => rfl
    | elem tt di dv ne cs =>
      unfold domToTokenArray
      rw [processNodeList_append]
      simp [processNodeList, String.append_empty]

/-- Flushing an empty buffer extracts the accumulated tokens unchanged. -/
theorem flushTextBuffer_empty_fst (toks : List InputToken) :
    (flushTextBuffer (toks, "")).1 = toks := by
  simp [flushTextBuffer]

/-- Flushing a non-empty buffer appends it as a Text token. -/
theorem flushTextBuffer_nonempty_fst (toks : List InputToken) (buf : String)
    (h : buf ≠ "") : (flushTextBuffer (toks, buf)).1 = toks ++ [.text buf] := by
  simp [flushTextBuffer, h]

/-- Processing a single text node appends its content to the buffer. -/
theorem processNodeList_single_text (toks : List InputToken) (buf c : String) :
    processNodeList (toks, buf) [.text c] = (toks, buf ++ c) := by
  simp [processNodeList]

/-- Processing the span rendered for a Reference token with non-empty value
flushes the buffer and appends exactly that Reference token. -/
theorem processNodeList_single_reference (id label value : String) (hv : value ≠ "")
    (toks : List InputToken) (buf : String) :
    processNodeList (toks, buf) [.elem (some "reference") (some id) (some value) true
        (renderedTokenWidget label)]
      = ((flushTextBuffer (toks, buf)).1 ++ [.reference id label value], "") := by
  have hval : jsOr (some value) label = value := by simp [jsOr, hv]
  have hlab : textContentList (renderedTokenWidget label) = label := by
    simp [renderedTokenWidget, textContentList, String.append_empty]
  simp [processNodeList, referenceExtractor, hlab, hval, jsOr_some_default_empty,
    flushTextBuffer_snd]

/-- Round trip of the rendered node stream (before the trailing cursor
slot), generalized over already-extracted tokens. -/
theorem extract_render_aux :
    ∀ (T : List InputToken), noTwoAdjacentTextTokens T = true →
      T.all tokenValueNonempty = true → ∀ (toks : List InputToken),
      (flushTextBuffer (processNodeList (toks, "") (T.map renderInputToken).flatten)).1
        = toks ++ T := by
  intro T
  induction T with
  | nil => intro _ _ toks; simp [processNodeList, flushTextBuffer]
  | cons t rest ih =>
    intro hadj hne toks
    have hne_t : tokenValueNonempty t = true := by
      have := List.all_eq_true.mp hne t (List.mem_cons_self t rest)
      simpa using this
    have hne_rest : rest.all tokenValueNonempty = true := by
      rw [List.all_eq_true]
      intro x hx
      exact List.all_eq_true.mp hne x (List.mem_cons_of_mem t hx)
    cases t with
    | reference id label value =>
      have hv : value ≠ "" := by simpa [tokenValueNonempty] using hne_t
      have hadj_rest : noTwoAdjacentTextTokens rest = true := by
        cases rest with
        | nil => rfl
        | cons t2 rest2 =>
          have h1 : (!(isTextInputToken (InputToken.reference id label value)
              && isTextInputToken t2) && noTwoAdjacentTextTokens (t2 :: rest2)) = true := hadj
          exact ((Bool.and_eq_true _ _).mp h1).2
      simp only [List.map_cons, List.flatten_cons, renderInputToken]
      rw [processNodeList_append]
      rw [processNodeList_single_reference id label value hv]
      rw [flushTextBuffer_empty_fst]
      rw [ih hadj_rest hne_rest (toks ++ [InputToken.reference id label value])]
      simp
    | text v =>
      have hv : v ≠ "" := by simpa [tokenValueNonempty] using hne_t
      cases rest with
      | nil =>
        simp only [List.map_cons, List.map_nil, List.flatten_cons, List.flatten_nil,
          renderInputToken, renderTextToken, if_neg hv, List.append_nil]
        rw [processNodeList_single_text, String.empty_append]
        simp [flushTextBuffer, hv]
      | cons t2 rest2 =>
        cases t2 with
        | text v2 =>
          exfalso
          have h1 : (!(isTextInputToken (InputToken.text v)
              && isTextInputToken (InputToken.text v2))
              && noTwoAdjacentTextTokens (InputToken.text v2 :: rest2)) = true := hadj
          simp [isTextInputToken] at h1
        | reference id2 label2 value2 =>
          have hv2 : value2 ≠ "" := by
            have := List.all_eq_true.mp hne_rest (InputToken.reference id2 label2 value2)
              (List.mem_cons_self _ rest2)
            simpa [tokenValueNonempty] using this
          have hadj2 : noTwoAdjacentTextTokens (InputToken.reference id2 label2 value2 :: rest2)
              = true := by
            have h1 : (!(isTextInputToken (InputToken.text v)
                && isTextInputToken (InputToken.reference id2 label2 value2))
                && noTwoAdjacentTextTokens (InputToken.reference id2 label2 value2 :: rest2))
                = true := hadj
            exact ((Bool.and_eq_true _ _).mp h1).2
          have hadj_rest2 : noTwoAdjacentTextTokens rest2 = true := by
            cases rest2 with
            | nil => rfl
            | cons t3 rest3 =>
              have h1 : (!(isTextInputToken (InputToken.reference id2 label2 value2)
                  && isTextInputToken t3) && noTwoAdjacentTextTokens (t3 :: rest3)) = true := hadj2
              exact ((Bool.and_eq_true _ _).mp h1).2
          have hne_rest2 : rest2.all tokenValueNonempty = true := by
            rw [List.all_eq_true]
            intro x hx
            exact List.all_eq_true.mp hne_rest x (List.mem_cons_of_mem _ hx)
          -- process the text node, then the reference span, then use the IH on rest2
          have hih := ih hadj2 hne_rest (toks ++ [InputToken.text v])
          simp only [List.map_cons, List.flatten_cons, renderInputToken] at hih
          rw [processNodeList_append, processNodeList_single_reference id2 label2 value2 hv2,
            flushTextBuffer_empty_fst] at hih
          simp only [List.map_cons, List.flatten_cons, renderInputToken, renderTextToken,
            if_neg hv, List.singleton_append, List.cons_append, List.nil_append]
          rw [show (DomNode.text v
              :: (DomNode.elem (some "reference") (some id2) (some value2) true
                  (renderedTokenWidget label2) :: (rest2.map renderInputToken).flatten))
            = [DomNode.text v] ++ (DomNode.elem (some "reference") (some id2) (some value2) true
                  (renderedTokenWidget label2) :: (rest2.map renderInputToken).flatten) from rfl]
          rw [processNodeList_append, processNodeList_single_text, String.empty_append]
          rw [show (DomNode.elem (some "reference") (some id2) (some value2) true
                  (renderedTokenWidget label2) :: (rest2.map renderInputToken).flatten)
            = [DomNode.elem (some "reference") (some id2) (some value2) true
                  (renderedTokenWidget label2)] ++ (rest2.map renderInputToken).flatten from rfl]
          rw [processNodeList_append, processNodeList_single_reference id2 label2 value2 hv2,
            flushTextBuffer_nonempty_fst toks v hv]
          rw [hih]
          simp

/-- C2 (amended): for a token array with no two adjacent Text tokens, no
empty Text token and no empty Reference value, extracting the freshly
rendered surface returns the array itself (with the inline widget's display
text modelled as the token's label).  An empty Text token is silently
dropped by the renderer and an empty Reference value falls back to the
widget text on extraction, hence the two extra conditions. -/
theorem render_extract_roundtrip (T : List InputToken)
    (hadj : noTwoAdjacentTextTokens T = true) (hne : T.all tokenValueNonempty = true) :
    domToTokenArray (renderTokensToDOM T none) = T := by
  unfold renderTokensToDOM
  rw [domToTokenArray_ensureCursorPlacement]
  unfold domToTokenArray
  simpa using extract_render_aux T hadj hne []

/-- Witness for the amended C2 theorem at a concrete well-formed array. -/
theorem render_extract_roundtrip_witness :
    domToTokenArray (renderTokensToDOM
      [.text "hi ", .reference "j" "J" "V", .text "!"] none)
      = [.text "hi ", .reference "j" "J" "V", .text "!"] :=
  render_extract_roundtrip [.text "hi ", .reference "j" "J" "V", .text "!"]
    (by decide) (by decide)

/-- C2 counterexample: `[{text:""}]` has no two adjacent Text tokens, yet
the renderer drops the empty text node entirely and extraction returns `[]`,
not the original array. -/
theorem render_extract_roundtrip_fails_on_empty_text :
    noTwoAdjacentTextTokens [InputToken.text ""] = true ∧
    domToTokenArray (renderTokensToDOM [InputToken.text ""] none) ≠ [InputToken.text ""] := by
  constructor
  · decide
  · simp [domToTokenArray, renderTokensToDOM, ensureCursorPlacement, renderInputToken,
      renderTextToken, processNodeList, flushTextBuffer]

/-! ### Malformed widget extraction (C9) -/

/-- C9 (amended): an element tagged `data-token-type="reference"` but missing
its `data-token-id`/`data-token-value` attributes never fails extraction:
from any extraction state it flushes the pending text and emits a Reference
token with empty id whose label and value fall back to the widget's text
content (hence empty-valued exactly when the widget has no text), leaving a
clean state so the rest of the extraction completes normally; end to end,
surrounding text is extracted untouched. -/
theorem malformed_widget_extraction :
    (∀ (toks : List InputToken) (buf : String) (ne : Bool) (children : List DomNode),
      processNodeList (toks, buf) [.elem (some "reference") none none ne children]
        = ((flushTextBuffer (toks, buf)).1 ++
            [.reference "" (textContentList children) (textContentList children)], "")) ∧
    domToTokenArray [.text "a", .elem (some "reference") none none true [], .text "b"]
      = [.text "a", .reference "" "" "", .text "b"] := by
  constructor
  · intro toks buf ne children
    simp [processNodeList, referenceExtractor, jsOr, flushTextBuffer_snd]
  · simp [domToTokenArray, processNodeList, referenceExtractor, jsOr, textContentList,
      flushTextBuffer, String.empty_append]

/-- C9 counterexample: a reference-tagged widget with no `data-token-*`
identity data but non-empty text content extracts to a Reference token whose
value is that text — not an empty-valued Reference token as claimed. -/
theorem malformed_widget_not_empty_valued :
    domToTokenArray [.elem (some "reference") none none true [.text "x"]]
      = [.reference "" "x" "x"] ∧ ("x" : String) ≠ "" := by
  constructor
  · simp [domToTokenArray, processNodeList, referenceExtractor, jsOr, textContentList,
      flushTextBuffer, String.append_empty]
  · decide

/-! ### Extraction output invariants (C10) -/

/-- No Mode-tagged element anywhere in a node forest. -/
def noModeNodes : List DomNode → Bool
  | [] => true
  | .text _ :: rest => noModeNodes rest
  | .elem tt _ _ _ cs :: rest =>
    !(tt == some "mode") && noModeNodes cs && noModeNodes rest

/-- A Text token has non-empty value (trivially true for references). -/
def textTokenNonempty : InputToken → Bool
  | .text v => !(v == "")
  | .reference _ _ _ => true

/-- The array does not end with a Text token (vacuously true when empty). -/
def lastIsNotText : List InputToken → Bool
  | [] => true
  | [t] => !(isTextInputToken t)
  | _ :: rest => lastIsNotText rest

/-- Flushing preserves "every Text token non-empty". -/
theorem flushTextBuffer_all_nonempty (st : List InputToken × String)
    (h : st.1.all textTokenNonempty = true) :
    (flushTextBuffer st).1.all textTokenNonempty = true := by
  obtain ⟨toks, buf⟩ := st
  by_cases hb : buf = ""
  · simpa [flushTextBuffer, hb] using h
  · simp only [flushTextBuffer, if_neg hb]
    simp only at h
    simp [List.all_append, h, textTokenNonempty, hb]

/-- Appending one token to an array whose last token is not Text (or where
the new token is not Text) cannot create adjacent Text tokens. -/
theorem noAdj_append_single :
    ∀ (l : List InputToken) (t : InputToken),
      noTwoAdjacentTextTokens l = true →
      (lastIsNotText l = true ∨ isTextInputToken t = false) →
      noTwoAdjacentTextTokens (l ++ [t]) = true := by
  intro l
  induction l with
  | nil => intro t _ _; rfl
  | cons a l' ih =>
    intro t hl h
    cases l' with
    | nil =>
      have ha : isTextInputToken a = false ∨ isTextInputToken t = false := by
        rcases h with h1 | h2
        · left
          simpa [lastIsNotText] using h1
        · right; exact h2
      rcases ha with h1 | h2
      · simp [noTwoAdjacentTextTokens, h1]
      · simp [noTwoAdjacentTextTokens, h2]
    | cons b l'' =>
      have hl1 : (!(isTextInputToken a && isTextInputToken b)) = true :=
        ((Bool.and_eq_true _ _).mp hl).1
      have hl2 : noTwoAdjacentTextTokens (b :: l'') = true :=
        ((Bool.and_eq_true _ _).mp hl).2
      have hlast : lastIsNotText (a :: b :: l'') = lastIsNotText (b :: l'') := rfl
      have hrec := ih t hl2 (by rwa [hlast] at h)
      show (!(isTextInputToken a && isTextInputToken b)
        && noTwoAdjacentTextTokens (b :: (l'' ++ [t]))) = true
      rw [Bool.and_eq_true]
      exact ⟨hl1, hrec⟩

/-- The last token of `l ++ [t]` is `t`. -/
theorem lastIsNotText_append_single :
    ∀ (l : List InputToken) (t : InputToken),
      lastIsNotText (l ++ [t]) = !(isTextInputToken t) := by
  intro l
  induction l with
  | nil => intro t; rfl
  | cons a l' ih =>
    intro t
    cases l' with
    | nil => rfl
    | cons b l'' => exact ih t

/-- Flushing cannot create adjacent Text tokens when the array does not end
with one. -/
theorem flushTextBuffer_noAdj (st : List InputToken × String)
    (h1 : noTwoAdjacentTextTokens st.1 = true) (h2 : lastIsNotText st.1 = true) :
    noTwoAdjacentTextTokens (flushTextBuffer st).1 = true := by
  obtain ⟨toks, buf⟩ := st
  by_cases hb : buf = ""
  · simpa [flushTextBuffer, hb] using h1
  · simp only [flushTextBuffer, if_neg hb]
    exact noAdj_append_single toks (.text buf) h1 (Or.inl h2)

/-- Extraction preserves "every Text token non-empty": only flushes push
Text tokens and a flush pushes a non-empty buffer. -/
theorem processNodeList_all_nonempty :
    ∀ (ns : List DomNode) (st : List InputToken × String),
      st.1.all textTokenNonempty = true →
      (processNodeList st ns).1.all textTokenNonempty = true
  | [], st, h => by simpa [processNodeList] using h
  | .text c :: rest, st, h => by
    simp only [processNodeList]
    exact processNodeList_all_nonempty rest (st.1, st.2 ++ c) h
  | .elem tt di dv ne cs :: rest, st, h => by
    simp only [processNodeList]
    by_cases hmode : tt = some "mode"
    · rw [if_pos hmode]
      exact processNodeList_all_nonempty rest _ (flushTextBuffer_all_nonempty st h)
    · rw [if_neg hmode]
      by_cases href : tt = some "reference"
      · rw [if_pos href]
        refine processNodeList_all_nonempty rest _ ?_
        have hfl := flushTextBuffer_all_nonempty st h
        simp [List.all_append, hfl, textTokenNonempty, referenceExtractor]
      · rw [if_neg href]
        exact processNodeList_all_nonempty rest _ (processNodeList_all_nonempty cs st h)
termination_by ns _ _ => sizeOf ns

/-- On a surface without Mode widgets, extraction keeps the token array free
of adjacent Text tokens, and never leaves it ending in a Text token (every
flush inside the walk is immediately followed by a Reference token). -/
theorem processNodeList_noAdjacent :
    ∀ (ns : List DomNode) (st : List InputToken × String),
      noModeNodes ns = true →
      noTwoAdjacentTextTokens st.1 = true → lastIsNotText st.1 = true →
      noTwoAdjacentTextTokens (processNodeList st ns).1 = true ∧
        lastIsNotText (processNodeList st ns).1 = true
  | [], st, _, h1, h2 => by simpa [processNodeList] using And.intro h1 h2
  | .text c :: rest, st, hnm, h1, h2 => by
    simp only [processNodeList]
    have hnm' := hnm
    simp only [noModeNodes] at hnm'
    exact processNodeList_noAdjacent rest (st.1, st.2 ++ c) hnm' h1 h2
  | .elem tt di dv ne cs :: rest, st, hnm, h1, h2 => by
    have hnm0 := hnm
    simp only [noModeNodes] at hnm0
    have hnmode : ¬(tt = some "mode") := by
      intro hc
      rw [hc] at hnm0
      simp at hnm0
    have hnmcs : noModeNodes cs = true := ((Bool.and_eq_true _ _).mp
      ((Bool.and_eq_true _ _).mp hnm0).1).2
    have hnmrest : noModeNodes rest = true := ((Bool.and_eq_true _ _).mp hnm0).2
    simp only [processNodeList]
    rw [if_neg hnmode]
    by_cases href : tt = some "reference"
    · rw [if_pos href]
      refine processNodeList_noAdjacent rest _ hnmrest ?_ ?_
      · exact noAdj_append_single _ _ (flushTextBuffer_noAdj st h1 h2)
          (Or.inr (by simp [isTextInputToken, referenceExtractor]))
      · simp [lastIsNotText_append_single, isTextInputToken, referenceExtractor]
    · rw [if_neg href]
      obtain ⟨ha, hb⟩ := processNodeList_noAdjacent cs st hnmcs h1 h2
      exact processNodeList_noAdjacent rest _ hnmrest ha hb
termination_by ns _ _ _ _ => sizeOf ns

/-- C10 (amended): extraction never emits an empty Text token; and, provided
the surface holds no Mode widget, it never emits two adjacent Text tokens
(a Mode widget flushes the text run without emitting any token, so text on
either side of one extracts as two adjacent Text tokens). -/
theorem domToTokenArray_wellformed (ns : List DomNode) :
    (domToTokenArray ns).all textTokenNonempty = true ∧
    (noModeNodes ns = true → noTwoAdjacentTextTokens (domToTokenArray ns) = true) := by
  constructor
  · unfold domToTokenArray
    exact flushTextBuffer_all_nonempty _ (processNodeList_all_nonempty ns ([], "") (by simp))
  · intro hnm
    unfold domToTokenArray
    obtain ⟨ha, hl⟩ := processNodeList_noAdjacent ns ([], "") hnm (by rfl) (by rfl)
    exact flushTextBuffer_noAdj _ ha hl

/-- Witness for the amended C10 theorem at a concrete mode-free surface. -/
theorem domToTokenArray_wellformed_witness :
    (domToTokenArray [DomNode.text "a",
        DomNode.elem (some "reference") (some "i") (some "v") true [DomNode.text "l"],
        DomNode.text "b"]).all textTokenNonempty = true ∧
    noTwoAdjacentTextTokens (domToTokenArray [DomNode.text "a",
        DomNode.elem (some "reference") (some "i") (some "v") true [DomNode.text "l"],
        DomNode.text "b"]) = true :=
  ⟨(domToTokenArray_wellformed _).1,
   (domToTokenArray_wellformed [DomNode.text "a",
      DomNode.elem (some "reference") (some "i") (some "v") true [DomNode.text "l"],
      DomNode.text "b"]).2 (by simp [noModeNodes])⟩

/-- C10 counterexample: a Mode-tagged widget between two text runs makes
`domToTokenArray` emit two adjacent Text tokens — the mode element flushes
the buffer without emitting any token between the runs. -/
theorem domToTokenArray_adjacent_text_on_mode_widget :
    domToTokenArray [.text "a", .elem (some "mode") none none true [], .text "b"]
      = [InputToken.text "a", InputToken.text "b"] ∧
    noTwoAdjacentTextTokens [InputToken.text "a", InputToken.text "b"] = false := by
  constructor
  · simp [domToTokenArray, processNodeList, flushTextBuffer, String.empty_append]
  · decide

/-! ### Cursor placement (`CursorManager.setPosition`, `utils/cursor-utils.ts`;
`findNodeAndOffset`, `selection-utils.ts`) -/

/-- The text nodes enumerated by the tree walker of `walkToPosition`
(`cursor-utils.ts` 83-111): every text descendant, in document order,
skipping subtrees of `contentEditable === 'false'` elements. -/
def accessibleTexts : List DomNode → List String
  | [] => []
  | .text c :: rest => c :: accessibleTexts rest
  | .elem _ _ _ notEditable cs :: rest =>
    (if notEditable then [] else accessibleTexts cs) ++ accessibleTexts rest

/-- Total character length of the accessible text nodes. -/
def accessibleLength (ns : List DomNode) : Nat :=
  ((accessibleTexts ns).map String.length).sum

/-- Loop of `walkToPosition` (`cursor-utils.ts` 98-110): walks the
accessible text nodes; the first node with
`currentPos + textLength >= position` is returned with offset
`min (position - currentPos) textLength`; `none` when the walk runs out. -/
def walkToPositionAux : List String → Nat → Nat → Nat → Option (Nat × Nat)
  | [], _, _, _ => none
  | s :: rest, position, idx, currentPos =>
    let textLength := s.length
    if position ≤ currentPos + textLength then
      some (idx, min (position - currentPos) textLength)
    else walkToPositionAux rest position (idx + 1) (currentPos + textLength)

/-- Where `CursorManager.setPosition` places the cursor. -/
inductive CursorTarget where
  | endOfContent
  | toNode (nodeIdx : Nat) (offset : Nat)
deriving DecidableEq, Repr

/-- `CursorManager.setPosition` (`cursor-utils.ts` 31-54): when
`walkToPosition` resolves the position, the cursor goes to that node/offset;
otherwise (`!location`) the range is collapsed to the end of the element's
content. -/
def setPosition (ns : List DomNode) (position : Nat) : CursorTarget :=
  match walkToPositionAux (accessibleTexts ns) position 0 0 with
  | none => .endOfContent
  | some (n, off) => .toNode n off

/-- Past the accessible content, the walk finds nothing. -/
theorem walkToPositionAux_out_of_range :
    ∀ (l : List String) (position idx currentPos : Nat),
      currentPos + (l.map String.length).sum < position →
      walkToPositionAux l position idx currentPos = none := by
  intro l
  induction l with
  | nil => intro position idx currentPos _; rfl
  | cons s rest ih =>
    intro position idx currentPos h
    have hsum : (List.map String.length (s :: rest)).sum
        = s.length + (rest.map String.length).sum := by simp
    rw [hsum] at h
    simp only [walkToPositionAux]
    rw [if_neg (by omega)]
    exact ih position (idx + 1) (currentPos + s.length) (by omega)

/-- The model of `findNodeAndOffset`'s main loop (`selection-utils.ts`
11-32): walks the top-level child nodes only; an element tagged
`data-token-type="reference"` matches when `currentOffset === targetOffset`
(offset 0 inside it) and otherwise counts 1 character; a text node matches
when `currentOffset + textLength >= targetOffset`; every other node is
skipped without advancing. -/
def findNodeAndOffsetAux : List DomNode → Nat → Nat → Nat → Option (Nat × Nat)
  | [], _, _, _ => none
  | child :: rest, targetOffset, idx, currentOffset =>
    match child with
    | .elem tokenType _ _ _ _ =>
      if tokenType = some "reference" then
        if currentOffset = targetOffset then some (idx, 0)
        else findNodeAndOffsetAux rest targetOffset (idx + 1) (currentOffset + 1)
      else findNodeAndOffsetAux rest targetOffset (idx + 1) currentOffset
    | .text c =>
      if targetOffset ≤ currentOffset + c.length then some (idx, targetOffset - currentOffset)
      else findNodeAndOffsetAux rest targetOffset (idx + 1) (currentOffset + c.length)

/-- `node.textContent` of a single node. -/
def textContent : DomNode → String
  | .text c => c
  | .elem _ _ _ _ cs => textContentList cs

/-- The end-of-content fallback of `findNodeAndOffset`
(`selection-utils.ts` 34-36): the last child with its text length as offset,
or `null` when the element is empty. -/
def lastChildFallback (children : List DomNode) : Option (Nat × Nat) :=
  match children.getLast? with
  | some lastChild => some (children.length - 1, (textContent lastChild).length)
  | none => none

/-- `findNodeAndOffset` (`selection-utils.ts` 8-37). -/
def findNodeAndOffset (children : List DomNode) (targetOffset : Nat) : Option (Nat × Nat) :=
  match findNodeAndOffsetAux children targetOffset 0 0 with
  | some r => some r
  | none => lastChildFallback children

/-- The character length `findNodeAndOffset` assigns to the top-level nodes:
reference elements count 1, text nodes their length, other elements 0. -/
def findNodeLength : DomNode → Nat
  | .text c => c.length
  | .elem tokenType _ _ _ _ => if tokenType = some "reference" then 1 else 0

/-- Total `findNodeAndOffset` length of the top-level children. -/
def findNodesLength (children : List DomNode) : Nat :=
  (children.map findNodeLength).sum

/-- Past the total length, the `findNodeAndOffset` loop finds nothing. -/
theorem findNodeAndOffsetAux_out_of_range :
    ∀ (children : List DomNode) (targetOffset idx currentOffset : Nat),
      currentOffset + findNodesLength children < targetOffset →
      findNodeAndOffsetAux children targetOffset idx currentOffset = none := by
  intro children
  induction children with
  | nil => intro targetOffset idx currentOffset _; rfl
  | cons child rest ih =>
    intro targetOffset idx currentOffset h
    have hsum : findNodesLength (child :: rest)
        = findNodeLength child + findNodesLength rest := by
      simp [findNodesLength]
    rw [hsum] at h
    cases child with
    | text c =>
      simp only [findNodeAndOffsetAux]
      rw [if_neg (by simp [findNodeLength] at h; omega)]
      refine ih targetOffset (idx + 1) (currentOffset + c.length) ?_
      simp [findNodeLength] at h
      omega
    | elem tokenType di dv ne cs =>
      simp only [findNodeAndOffsetAux]
      by_cases href : tokenType = some "reference"
      · rw [if_pos href]
        rw [if_neg (by simp [findNodeLength, href] at h; omega)]
        refine ih targetOffset (idx + 1) (currentOffset + 1) ?_
        simp [findNodeLength, href] at h
        omega
      · rw [if_neg href]
        refine ih targetOffset (idx + 1) currentOffset ?_
        simp [findNodeLength, href] at h
        omega

/-- C8: cursor placement degrades safely instead of throwing — for every
requested position strictly beyond the content, `CursorManager.setPosition`
resolves to the end-of-content range, and `findNodeAndOffset` returns its
last-child fallback location. -/
theorem cursor_placement_degrades_to_end :
    (∀ (ns : List DomNode) (position : Nat), accessibleLength ns < position →
      setPosition ns position = .endOfContent) ∧
    (∀ (children : List DomNode) (targetOffset : Nat),
      findNodesLength children < targetOffset →
      findNodeAndOffset children targetOffset = lastChildFallback children) := by
  constructor
  · intro ns position h
    unfold setPosition
    rw [walkToPositionAux_out_of_range (accessibleTexts ns) position 0 0
      (by simpa [accessibleLength] using h)]
  · intro children targetOffset h
    unfold findNodeAndOffset
    rw [findNodeAndOffsetAux_out_of_range children targetOffset 0 0 (by simpa using h)]

/-- Witness for C8 at concrete out-of-range positions. -/
theorem cursor_placement_degrades_to_end_witness :
    setPosition [DomNode.text "ab",
        DomNode.elem (some "reference") (some "i") (some "v") true [DomNode.text "label"]]
      99 = .endOfContent ∧
    findNodeAndOffset [DomNode.text "ab",
        DomNode.elem (some "reference") (some "i") (some "v") true [DomNode.text "label"]]
      99 = lastChildFallback [DomNode.text "ab",
        DomNode.elem (some "reference") (some "i") (some "v") true [DomNode.text "label"]] :=
  ⟨cursor_placement_degrades_to_end.1 [DomNode.text "ab",
      DomNode.elem (some "reference") (some "i") (some "v") true [DomNode.text "label"]] 99
      (by simp [accessibleLength, accessibleTexts]; decide),
   cursor_placement_degrades_to_end.2 [DomNode.text "ab",
      DomNode.elem (some "reference") (some "i") (some "v") true [DomNode.text "label"]] 99
      (by simp [findNodesLength, findNodeLength]; decide)⟩

end PromptInput
